import Mathlib

/-!
Verification of the rule engine of the 3D tic-tac-toe repository.

The definitions below are a shallow embedding of the `TicTacToe` class of
`src/src/TicTacToe3D.jsx` (lines 597-907): the constructor, `initializeBoard`,
`makeMove`, `checkWin` (generic direction-scan path), `checkWinStandard`
(the 3x3x3 fast path), `checkLine`, `reset` and `getCell`.

Modelling conventions:
- JS cell values `null | 'X' | 'O'` become `Option Mark`; the JS truthiness
  test `!cell` becomes `cell = none`.
- The board, a `width x height x depth` nested JS array initialized to `null`,
  becomes a total function `Int → Int → Int → Option Mark` that is `none`
  everywhere at initialization; the source only ever reads or writes it
  behind explicit bounds checks, which are translated verbatim.
- Coordinates at the public boundary are 1-based JS numbers, modelled as `Int`
  (so that `x - 1 < 0` behaves as in the source for zero and negative input).
- The JS field `winner : null | 'X' | 'O' | 'draw'` becomes
  `Option WinnerVal`.
- `new Array(n)` throws a `RangeError` for an invalid length (negative, or
  `2^32` and above), so the constructor is modelled as returning
  `Option Game`.  The nested allocation of `initializeBoard` is lazy: the
  height array is allocated only when `width ≥ 1` (the outer `map` callback
  runs at least once) and the depth array only when additionally
  `height ≥ 1`, so e.g. `new TicTacToe(0, -1, 3)` succeeds.  `mkGame` is
  `none` exactly when one of the actually-evaluated `Array(n)` calls throws.
  The default `winLength || Math.min(...)` applies the JS truthiness rule:
  an absent (`null`) or zero `winLength` falls back to the minimum
  dimension.
-/

namespace TTT

/-- Player marks: the JS strings `'X'` and `'O'`. -/
inductive Mark where
  | X : Mark
  | O : Mark
deriving DecidableEq

/-- The ternary `this.currentPlayer === 'X' ? 'O' : 'X'` from `makeMove`. -/
def Mark.other : Mark → Mark
  | .X => .O
  | .O => .X

/-- Values stored in `this.winner` when it is not `null`. -/
inductive WinnerVal where
  | mark : Mark → WinnerVal
  | draw : WinnerVal
deriving DecidableEq

/-- The fields of the `TicTacToe` class. -/
structure Game where
  width : Int
  height : Int
  depth : Int
  winLength : Int
  board : Int → Int → Int → Option Mark
  currentPlayer : Mark
  winner : Option WinnerVal
  moveCount : Int
  totalCells : Int

/-- A 0-based cell coordinate. -/
structure Coord where
  x : Int
  y : Int
  z : Int
deriving DecidableEq

/-- One tested line of `checkWinStandard`: the three cells passed to
`checkLine` plus the cell whose value the code returns on success. -/
structure LineSpec where
  a : Coord
  b : Coord
  c : Coord
  ret : Coord
deriving DecidableEq

/-- Read a board at a coordinate triple. -/
def cell (bd : Int → Int → Int → Option Mark) (p : Coord) : Option Mark :=
  bd p.x p.y p.z

/-- `checkLine(a, b, c)`: `a !== null && a === b && b === c`. -/
def checkLine (a b c : Option Mark) : Bool :=
  a.isSome && a == b && b == c

/-- The 49 lines tested by `checkWinStandard`, in the exact textual order the
method tests them (rows, columns, pillars, XY-, XZ-, YZ-face diagonals, space
diagonals), each with the cell the method returns when that test succeeds. -/
def stdLines : List LineSpec := [
  -- rows: for z, for y: cells (0,y,z) (1,y,z) (2,y,z), returns board[0][y][z]
  ⟨⟨0,0,0⟩,⟨1,0,0⟩,⟨2,0,0⟩,⟨0,0,0⟩⟩, ⟨⟨0,1,0⟩,⟨1,1,0⟩,⟨2,1,0⟩,⟨0,1,0⟩⟩, ⟨⟨0,2,0⟩,⟨1,2,0⟩,⟨2,2,0⟩,⟨0,2,0⟩⟩,
  ⟨⟨0,0,1⟩,⟨1,0,1⟩,⟨2,0,1⟩,⟨0,0,1⟩⟩, ⟨⟨0,1,1⟩,⟨1,1,1⟩,⟨2,1,1⟩,⟨0,1,1⟩⟩, ⟨⟨0,2,1⟩,⟨1,2,1⟩,⟨2,2,1⟩,⟨0,2,1⟩⟩,
  ⟨⟨0,0,2⟩,⟨1,0,2⟩,⟨2,0,2⟩,⟨0,0,2⟩⟩, ⟨⟨0,1,2⟩,⟨1,1,2⟩,⟨2,1,2⟩,⟨0,1,2⟩⟩, ⟨⟨0,2,2⟩,⟨1,2,2⟩,⟨2,2,2⟩,⟨0,2,2⟩⟩,
  -- columns: for z, for x: cells (x,0,z) (x,1,z) (x,2,z), returns board[x][0][z]
  ⟨⟨0,0,0⟩,⟨0,1,0⟩,⟨0,2,0⟩,⟨0,0,0⟩⟩, ⟨⟨1,0,0⟩,⟨1,1,0⟩,⟨1,2,0⟩,⟨1,0,0⟩⟩, ⟨⟨2,0,0⟩,⟨2,1,0⟩,⟨2,2,0⟩,⟨2,0,0⟩⟩,
  ⟨⟨0,0,1⟩,⟨0,1,1⟩,⟨0,2,1⟩,⟨0,0,1⟩⟩, ⟨⟨1,0,1⟩,⟨1,1,1⟩,⟨1,2,1⟩,⟨1,0,1⟩⟩, ⟨⟨2,0,1⟩,⟨2,1,1⟩,⟨2,2,1⟩,⟨2,0,1⟩⟩,
  ⟨⟨0,0,2⟩,⟨0,1,2⟩,⟨0,2,2⟩,⟨0,0,2⟩⟩, ⟨⟨1,0,2⟩,⟨1,1,2⟩,⟨1,2,2⟩,⟨1,0,2⟩⟩, ⟨⟨2,0,2⟩,⟨2,1,2⟩,⟨2,2,2⟩,⟨2,0,2⟩⟩,
  -- pillars: for x, for y: cells (x,y,0) (x,y,1) (x,y,2), returns board[x][y][0]
  ⟨⟨0,0,0⟩,⟨0,0,1⟩,⟨0,0,2⟩,⟨0,0,0⟩⟩, ⟨⟨0,1,0⟩,⟨0,1,1⟩,⟨0,1,2⟩,⟨0,1,0⟩⟩, ⟨⟨0,2,0⟩,⟨0,2,1⟩,⟨0,2,2⟩,⟨0,2,0⟩⟩,
  ⟨⟨1,0,0⟩,⟨1,0,1⟩,⟨1,0,2⟩,⟨1,0,0⟩⟩, ⟨⟨1,1,0⟩,⟨1,1,1⟩,⟨1,1,2⟩,⟨1,1,0⟩⟩, ⟨⟨1,2,0⟩,⟨1,2,1⟩,⟨1,2,2⟩,⟨1,2,0⟩⟩,
  ⟨⟨2,0,0⟩,⟨2,0,1⟩,⟨2,0,2⟩,⟨2,0,0⟩⟩, ⟨⟨2,1,0⟩,⟨2,1,1⟩,⟨2,1,2⟩,⟨2,1,0⟩⟩, ⟨⟨2,2,0⟩,⟨2,2,1⟩,⟨2,2,2⟩,⟨2,2,0⟩⟩,
  -- XY-plane diagonals: for z: two diagonals, both return board[1][1][z]
  ⟨⟨0,0,0⟩,⟨1,1,0⟩,⟨2,2,0⟩,⟨1,1,0⟩⟩, ⟨⟨2,0,0⟩,⟨1,1,0⟩,⟨0,2,0⟩,⟨1,1,0⟩⟩,
  ⟨⟨0,0,1⟩,⟨1,1,1⟩,⟨2,2,1⟩,⟨1,1,1⟩⟩, ⟨⟨2,0,1⟩,⟨1,1,1⟩,⟨0,2,1⟩,⟨1,1,1⟩⟩,
  ⟨⟨0,0,2⟩,⟨1,1,2⟩,⟨2,2,2⟩,⟨1,1,2⟩⟩, ⟨⟨2,0,2⟩,⟨1,1,2⟩,⟨0,2,2⟩,⟨1,1,2⟩⟩,
  -- XZ-plane diagonals: for y: two diagonals, both return board[1][y][1]
  ⟨⟨0,0,0⟩,⟨1,0,1⟩,⟨2,0,2⟩,⟨1,0,1⟩⟩, ⟨⟨2,0,0⟩,⟨1,0,1⟩,⟨0,0,2⟩,⟨1,0,1⟩⟩,
  ⟨⟨0,1,0⟩,⟨1,1,1⟩,⟨2,1,2⟩,⟨1,1,1⟩⟩, ⟨⟨2,1,0⟩,⟨1,1,1⟩,⟨0,1,2⟩,⟨1,1,1⟩⟩,
  ⟨⟨0,2,0⟩,⟨1,2,1⟩,⟨2,2,2⟩,⟨1,2,1⟩⟩, ⟨⟨2,2,0⟩,⟨1,2,1⟩,⟨0,2,2⟩,⟨1,2,1⟩⟩,
  -- YZ-plane diagonals: for x: two diagonals, both return board[x][1][1]
  ⟨⟨0,0,0⟩,⟨0,1,1⟩,⟨0,2,2⟩,⟨0,1,1⟩⟩, ⟨⟨0,2,0⟩,⟨0,1,1⟩,⟨0,0,2⟩,⟨0,1,1⟩⟩,
  ⟨⟨1,0,0⟩,⟨1,1,1⟩,⟨1,2,2⟩,⟨1,1,1⟩⟩, ⟨⟨1,2,0⟩,⟨1,1,1⟩,⟨1,0,2⟩,⟨1,1,1⟩⟩,
  ⟨⟨2,0,0⟩,⟨2,1,1⟩,⟨2,2,2⟩,⟨2,1,1⟩⟩, ⟨⟨2,2,0⟩,⟨2,1,1⟩,⟨2,0,2⟩,⟨2,1,1⟩⟩,
  -- space diagonals, in source order, all return board[1][1][1]
  ⟨⟨0,0,0⟩,⟨1,1,1⟩,⟨2,2,2⟩,⟨1,1,1⟩⟩, ⟨⟨2,0,0⟩,⟨1,1,1⟩,⟨0,2,2⟩,⟨1,1,1⟩⟩,
  ⟨⟨0,2,0⟩,⟨1,1,1⟩,⟨2,0,2⟩,⟨1,1,1⟩⟩, ⟨⟨2,2,0⟩,⟨1,1,1⟩,⟨0,0,2⟩,⟨1,1,1⟩⟩ ]

/-- One test of `checkWinStandard`: on success the method returns the value of
the designated return cell. -/
def lineHit (bd : Int → Int → Int → Option Mark) (L : LineSpec) : Option Mark :=
  if checkLine (cell bd L.a) (cell bd L.b) (cell bd L.c) then cell bd L.ret else none

/-- The body of `checkWinStandard`, on a raw board. -/
def stdScan (bd : Int → Int → Int → Option Mark) : Option Mark :=
  stdLines.findSome? (lineHit bd)

/-- `checkWinStandard()`. -/
def checkWinStandard (g : Game) : Option Mark :=
  stdScan g.board

/-- The loop bounds `[-1, 0, 1]` of the direction generator in `checkWin`. -/
def dirRange : List Int := [-1, 0, 1]

/-- The `directions` array of `checkWin`: all of `{-1,0,1}^3` except
`[0,0,0]`, in the nesting order of the three loops (dx outer, dz inner). -/
def directions : List (Int × Int × Int) :=
  dirRange.flatMap (fun dx => dirRange.flatMap (fun dy => dirRange.filterMap (fun dz =>
    if dx = 0 ∧ dy = 0 ∧ dz = 0 then none else some (dx, dy, dz))))

/-- The loop-body test of the two walks in `checkWin`: the stepped-to cell is
on the board and holds the pivot player's mark. -/
def matchAt (g : Game) (player : Mark) (nx ny nz : Int) : Bool :=
  decide (0 ≤ nx) && decide (nx < g.width) &&
  decide (0 ≤ ny) && decide (ny < g.height) &&
  decide (0 ≤ nz) && decide (nz < g.depth) &&
  (g.board nx ny nz == some player)

/-- The step indices `i = 1, ..., winLength - 1` of the two walk loops. -/
def stepIdx (g : Game) : List Int :=
  (List.range' 1 (g.winLength - 1).toNat).map (fun i => (i : Int))

/-- The forward walk of `checkWin`: consecutive matches at
`(x + dx*i, y + dy*i, z + dz*i)` for `i = 1, ...`, stopping at the first
failure (the loop's `break`). -/
def forwardCount (g : Game) (player : Mark) (x y z dx dy dz : Int) : Nat :=
  ((stepIdx g).takeWhile (fun i =>
    matchAt g player (x + dx * i) (y + dy * i) (z + dz * i))).length

/-- The backward walk of `checkWin`, at `(x - dx*i, y - dy*i, z - dz*i)`. -/
def backwardCount (g : Game) (player : Mark) (x y z dx dy dz : Int) : Nat :=
  ((stepIdx g).takeWhile (fun i =>
    matchAt g player (x - dx * i) (y - dy * i) (z - dz * i))).length

/-- `count` for one direction: the pivot cell plus both walks. -/
def dirCount (g : Game) (player : Mark) (x y z dx dy dz : Int) : Nat :=
  1 + forwardCount g player x y z dx dy dz + backwardCount g player x y z dx dy dz

/-- The direction loop of `checkWin` (the generic, non-3x3x3 path): return
the pivot player as winner on the first direction whose `count` reaches
`winLength`. -/
def genericScan (g : Game) (player : Mark) (x y z : Int) : Option Mark :=
  directions.findSome? (fun d =>
    if g.winLength ≤ (dirCount g player x y z d.1 d.2.1 d.2.2 : Int) then some player
    else none)

/-- `checkWin(x, y, z)` (0-based coordinates of the just-played cell). -/
def checkWin (g : Game) (x y z : Int) : Option Mark :=
  match g.board x y z with
  | none => none
  | some player =>
    if g.width = 3 ∧ g.height = 3 ∧ g.depth = 3 ∧ g.winLength = 3 then
      checkWinStandard g
    else
      genericScan g player x y z

/-- Functional update of the board at one cell
(`this.board[xIdx][yIdx][zIdx] = this.currentPlayer`). -/
def updateBoard (bd : Int → Int → Int → Option Mark) (xi yi zi : Int) (m : Mark) :
    Int → Int → Int → Option Mark :=
  fun a b c => if a = xi ∧ b = yi ∧ c = zi then some m else bd a b c

/-- The bounds-rejection condition of `makeMove`, on 1-based input. -/
def oob (g : Game) (x y z : Int) : Prop :=
  x - 1 < 0 ∨ g.width ≤ x - 1 ∨ y - 1 < 0 ∨ g.height ≤ y - 1 ∨
  z - 1 < 0 ∨ g.depth ≤ z - 1

instance (g : Game) (x y z : Int) : Decidable (oob g x y z) := by
  unfold oob; infer_instance

/-- The state right after `makeMove` writes the mark and bumps `moveCount`,
before the win/draw checks. -/
def placeG (g : Game) (x y z : Int) : Game :=
  { g with
    board := updateBoard g.board (x - 1) (y - 1) (z - 1) g.currentPlayer,
    moveCount := g.moveCount + 1 }

/-- `makeMove(x, y, z)`: returns the updated object state together with the
JS return value (`'X'`, `'O'`, `'draw'` or `null`). -/
def makeMove (g : Game) (x y z : Int) : Game × Option WinnerVal :=
  if oob g x y z then
    (g, none)
  else if g.board (x - 1) (y - 1) (z - 1) = none then
    let g1 := placeG g x y z
    match checkWin g1 (x - 1) (y - 1) (z - 1) with
    | some w => ({ g1 with winner := some (WinnerVal.mark w) }, some (WinnerVal.mark w))
    | none =>
      if g1.moveCount = g1.totalCells then
        ({ g1 with winner := some WinnerVal.draw }, some WinnerVal.draw)
      else
        ({ g1 with currentPlayer := g1.currentPlayer.other }, none)
  else
    (g, none)

/-- `getCell(x, y, z)` (1-based). -/
def getCell (g : Game) (x y z : Int) : Option Mark :=
  if 0 ≤ x - 1 ∧ x - 1 < g.width ∧ 0 ≤ y - 1 ∧ y - 1 < g.height ∧
     0 ≤ z - 1 ∧ z - 1 < g.depth then
    g.board (x - 1) (y - 1) (z - 1)
  else
    none

/-- `reset()`. -/
def reset (g : Game) : Game :=
  { g with
    board := fun _ _ _ => none,
    currentPlayer := Mark.X,
    winner := none,
    moveCount := 0 }

/-- An invalid JS array length: `Array(n)` throws a `RangeError` for a
negative length and for `2^32` or more. -/
def badLen (n : Int) : Prop := n < 0 ∨ 2 ^ 32 ≤ n

instance (n : Int) : Decidable (badLen n) := by
  unfold badLen
  infer_instance

/-- The condition under which the nested allocation of `initializeBoard`
throws.  The nesting is lazy: `Array(height)` is evaluated only when
`width ≥ 1`, and `Array(depth)` only when `width ≥ 1` and `height ≥ 1`. -/
def allocThrows (width height depth : Int) : Prop :=
  badLen width ∨ (1 ≤ width ∧ badLen height) ∨
    (1 ≤ width ∧ 1 ≤ height ∧ badLen depth)

instance (w h d : Int) : Decidable (allocThrows w h d) := by
  unfold allocThrows
  infer_instance

/-- The constructor.  `none` models the `RangeError` raised by whichever
`Array(n)` calls `initializeBoard` actually evaluates; the `winLength`
argument is `Option Int` (`none` is the JS `null` default), and the JS-falsy
values `null` and `0` fall back to `Math.min(width, height, depth)`. -/
def mkGame (width height depth : Int) (winLength : Option Int) : Option Game :=
  if allocThrows width height depth then
    none
  else
    some {
      width := width,
      height := height,
      depth := depth,
      winLength :=
        match winLength with
        | none => min width (min height depth)
        | some v => if v = 0 then min width (min height depth) else v,
      board := fun _ _ _ => none,
      currentPlayer := Mark.X,
      winner := none,
      moveCount := 0,
      totalCells := width * height * depth }

/-- The default configuration built by the view layer:
`new TicTacToe(3, 3, 3, 3)`. -/
def init3 : Game :=
  { width := 3, height := 3, depth := 3, winLength := 3,
    board := fun _ _ _ => none,
    currentPlayer := Mark.X,
    winner := none,
    moveCount := 0,
    totalCells := 27 }

/-- Fold a list of 1-based move triples through `makeMove`. -/
def mvSeq (g : Game) (ms : List (Int × Int × Int)) : Game :=
  ms.foldl (fun s m => (makeMove s m.1 m.2.1 m.2.2).1) g

/-! ### Generic list lemmas used throughout -/

theorem findSome?_eq_some_ex {α β : Type} {l : List α} {f : α → Option β} {b : β}
    (h : l.findSome? f = some b) : ∃ a ∈ l, f a = some b := by
  induction l with
  | nil => simp [List.findSome?] at h
  | cons x t ih =>
    rw [List.findSome?_cons] at h
    cases hf : f x with
    | some v =>
      rw [hf] at h
      exact ⟨x, List.mem_cons_self x t, by rw [hf]; exact h⟩
    | none =>
      rw [hf] at h
      obtain ⟨a, ha, hfa⟩ := ih h
      exact ⟨a, List.mem_cons_of_mem x ha, hfa⟩

theorem findSome?_ne_none_of_mem {α β : Type} {l : List α} {f : α → Option β} {a : α}
    (ha : a ∈ l) {b : β} (hb : f a = some b) : l.findSome? f ≠ none := by
  induction l with
  | nil => cases ha
  | cons x t ih =>
    rw [List.findSome?_cons]
    rcases List.mem_cons.mp ha with rfl | hmem
    · rw [hb]; exact Option.some_ne_none b
    · cases hf : f x with
      | some v => exact Option.some_ne_none v
      | none => exact ih hmem

theorem findSome?_if_const {α β : Type} (l : List α) (p : α → Prop) [DecidablePred p] (v : β) :
    (l.findSome? fun a => if p a then some v else none)
      = if ∃ a ∈ l, p a then some v else none := by
  induction l with
  | nil => simp
  | cons x t ih =>
    rw [List.findSome?_cons]
    by_cases hx : p x
    · simp [hx]
    · simp only [hx, if_false, ih]
      by_cases ht : ∃ a ∈ t, p a
      · rw [if_pos ht, if_pos (by exact ⟨ht.choose, List.mem_cons_of_mem x ht.choose_spec.1, ht.choose_spec.2⟩)]
      · rw [if_neg ht, if_neg (by rintro ⟨a, ha, hpa⟩; rcases List.mem_cons.mp ha with rfl | h; exact hx hpa; exact ht ⟨a, h, hpa⟩)]

/-! ### Structural lemmas about `makeMove` -/

theorem makeMove_oob {g : Game} {x y z : Int} (h : oob g x y z) :
    makeMove g x y z = (g, none) := by
  unfold makeMove
  rw [if_pos h]

theorem makeMove_occupied {g : Game} {x y z : Int} (h : ¬ oob g x y z)
    (hc : g.board (x - 1) (y - 1) (z - 1) ≠ none) :
    makeMove g x y z = (g, none) := by
  unfold makeMove
  rw [if_neg h, if_neg hc]

theorem makeMove_accepted {g : Game} {x y z : Int} (h : ¬ oob g x y z)
    (hc : g.board (x - 1) (y - 1) (z - 1) = none) :
    makeMove g x y z =
      match checkWin (placeG g x y z) (x - 1) (y - 1) (z - 1) with
      | some w =>
        ({ placeG g x y z with winner := some (WinnerVal.mark w) }, some (WinnerVal.mark w))
      | none =>
        if (placeG g x y z).moveCount = (placeG g x y z).totalCells then
          ({ placeG g x y z with winner := some WinnerVal.draw }, some WinnerVal.draw)
        else
          ({ placeG g x y z with currentPlayer := (placeG g x y z).currentPlayer.other }, none) := by
  unfold makeMove
  rw [if_neg h, if_pos hc]

theorem makeMove_dims (g : Game) (x y z : Int) :
    (makeMove g x y z).1.width = g.width ∧ (makeMove g x y z).1.height = g.height ∧
    (makeMove g x y z).1.depth = g.depth ∧ (makeMove g x y z).1.winLength = g.winLength ∧
    (makeMove g x y z).1.totalCells = g.totalCells := by
  by_cases h : oob g x y z
  · rw [makeMove_oob h]
    exact ⟨rfl, rfl, rfl, rfl, rfl⟩
  · by_cases hc : g.board (x - 1) (y - 1) (z - 1) = none
    · rw [makeMove_accepted h hc]
      cases checkWin (placeG g x y z) (x - 1) (y - 1) (z - 1) with
      | some w => exact ⟨rfl, rfl, rfl, rfl, rfl⟩
      | none =>
        by_cases hf : (placeG g x y z).moveCount = (placeG g x y z).totalCells
        · rw [if_pos hf]; exact ⟨rfl, rfl, rfl, rfl, rfl⟩
        · rw [if_neg hf]; exact ⟨rfl, rfl, rfl, rfl, rfl⟩
    · rw [makeMove_occupied h hc]
      exact ⟨rfl, rfl, rfl, rfl, rfl⟩

theorem makeMove_board_cases (g : Game) (x y z : Int) :
    ((makeMove g x y z).1.board = g.board ∧ (makeMove g x y z).1.moveCount = g.moveCount) ∨
    (¬ oob g x y z ∧ g.board (x - 1) (y - 1) (z - 1) = none ∧
      (makeMove g x y z).1.board = updateBoard g.board (x - 1) (y - 1) (z - 1) g.currentPlayer ∧
      (makeMove g x y z).1.moveCount = g.moveCount + 1) := by
  by_cases h : oob g x y z
  · left; rw [makeMove_oob h]; exact ⟨rfl, rfl⟩
  · by_cases hc : g.board (x - 1) (y - 1) (z - 1) = none
    · right
      refine ⟨h, hc, ?_⟩
      rw [makeMove_accepted h hc]
      cases checkWin (placeG g x y z) (x - 1) (y - 1) (z - 1) with
      | some w => exact ⟨rfl, rfl⟩
      | none =>
        by_cases hf : (placeG g x y z).moveCount = (placeG g x y z).totalCells
        · rw [if_pos hf]; exact ⟨rfl, rfl⟩
        · rw [if_neg hf]; exact ⟨rfl, rfl⟩
    · left; rw [makeMove_occupied h hc]; exact ⟨rfl, rfl⟩

theorem genericScan_of_winLength_le_one {g : Game} (hwl : g.winLength ≤ 1)
    (player : Mark) (x y z : Int) :
    genericScan g player x y z = some player := by
  unfold genericScan
  rw [findSome?_if_const]
  rw [if_pos ⟨(-1, -1, -1), by decide, by unfold dirCount; push_cast; omega⟩]

/-! ### Claim theorems (rejection, bounds safety, return values) -/

/-- Claim C3: a `makeMove` call whose coordinates are out of bounds or whose
target cell is already occupied is rejected atomically: the entire state is
unchanged and the call returns `null`; consequently repeating the call any
number of times changes nothing. -/
theorem c3_reject_atomic (g : Game) (x y z : Int)
    (h : oob g x y z ∨ g.board (x - 1) (y - 1) (z - 1) ≠ none) :
    makeMove g x y z = (g, none) ∧
    ∀ n : Nat, (fun s => (makeMove s x y z).1)^[n] g = g := by
  have h1 : makeMove g x y z = (g, none) := by
    rcases h with h | h
    · exact makeMove_oob h
    · by_cases ho : oob g x y z
      · exact makeMove_oob ho
      · exact makeMove_occupied ho h
  refine ⟨h1, fun n => Function.iterate_fixed ?_ n⟩
  show (makeMove g x y z).1 = g
  rw [h1]

theorem c3_reject_atomic_witness :
    makeMove init3 0 1 1 = (init3, none) ∧
    ∀ n : Nat, (fun s => (makeMove s 0 1 1).1)^[n] init3 = init3 :=
  c3_reject_atomic init3 0 1 1 (Or.inl (by decide))

/-- Claim C9: `getCell` and `makeMove` are total over all integer coordinate
triples and bounds-check before any board access: out-of-range coordinates
make `getCell` return `null`, make `makeMove` return `null` with the state
unchanged, and `makeMove` never writes a cell outside the configured bounds. -/
theorem c9_total_bounds :
    (∀ (g : Game) (x y z : Int), oob g x y z →
        getCell g x y z = none ∧ makeMove g x y z = (g, none)) ∧
    (∀ (g : Game) (x y z a b c : Int),
        ¬ (0 ≤ a ∧ a < g.width ∧ 0 ≤ b ∧ b < g.height ∧ 0 ≤ c ∧ c < g.depth) →
        (makeMove g x y z).1.board a b c = g.board a b c) := by
  constructor
  · intro g x y z h
    refine ⟨?_, makeMove_oob h⟩
    unfold getCell
    rw [if_neg (by unfold oob at h; omega)]
  · intro g x y z a b c hnr
    rcases makeMove_board_cases g x y z with ⟨hb, _⟩ | ⟨hno, _, hb, _⟩
    · rw [hb]
    · rw [hb]
      unfold updateBoard
      by_cases he : a = x - 1 ∧ b = y - 1 ∧ c = z - 1
      · exfalso
        obtain ⟨rfl, rfl, rfl⟩ := he
        unfold oob at hno
        exact hnr (by omega)
      · rw [if_neg he]

theorem c9_total_bounds_witness :
    (getCell init3 0 1 1 = none ∧ makeMove init3 0 1 1 = (init3, none)) ∧
    (makeMove init3 1 1 1).1.board 5 0 0 = init3.board 5 0 0 :=
  ⟨c9_total_bounds.1 init3 0 1 1 (by decide),
   c9_total_bounds.2 init3 1 1 1 5 0 0 (by decide)⟩

/-- Claim C10: an accepted move that leaves the game in progress (no win
detected and the board not full) returns `null`, exactly like a rejected
move, so the return value alone cannot distinguish the two. -/
theorem c10_null_return (g : Game) (x y z : Int) :
    ((oob g x y z ∨ g.board (x - 1) (y - 1) (z - 1) ≠ none) →
      (makeMove g x y z).2 = none) ∧
    (¬ oob g x y z → g.board (x - 1) (y - 1) (z - 1) = none →
      checkWin (placeG g x y z) (x - 1) (y - 1) (z - 1) = none →
      (placeG g x y z).moveCount ≠ (placeG g x y z).totalCells →
      (makeMove g x y z).2 = none) := by
  constructor
  · intro h
    rcases h with h | h
    · rw [makeMove_oob h]
    · by_cases ho : oob g x y z
      · rw [makeMove_oob ho]
      · rw [makeMove_occupied ho h]
  · intro hno hc hcw hfull
    rw [makeMove_accepted hno hc, hcw]
    dsimp only
    rw [if_neg hfull]

theorem c10_null_return_witness :
    (makeMove init3 0 1 1).2 = none ∧ (makeMove init3 1 1 1).2 = none :=
  ⟨(c10_null_return init3 0 1 1).1 (Or.inl (by decide)),
   (c10_null_return init3 1 1 1).2 (by decide) (by decide) (by decide) (by decide)⟩

/-! ### Claim theorems (construction, minimal win) -/

/-- Claim C6 counterexample: invalid construction does not fail.  A
`winLength = 5` on a 3x3x3 board — outside the range `[1, min(dims)]` —
produces a session with `winLength = 5` that accepts moves (the first move
succeeds and leaves an in-progress game), and even dimension triples with a
negative inner dimension, such as `(0, -1, 3)` and `(3, 0, -5)`, construct
successfully because the nested array allocation never reaches the negative
length. -/
theorem c6_invalid_construction_succeeds :
    (mkGame 3 3 3 (some 5)).map Game.winLength = some 5 ∧
    (mkGame 3 3 3 (some 5)).map (fun g => (makeMove g 1 1 1).1.moveCount) = some 1 ∧
    (mkGame 3 3 3 (some 5)).map (fun g => (makeMove g 1 1 1).1.board 0 0 0)
      = some (some Mark.X) ∧
    (mkGame 3 3 3 (some 5)).map (fun g => (makeMove g 1 1 1).1.winner) = some none ∧
    (mkGame 0 (-1) 3 none).isSome = true ∧
    (mkGame 3 0 (-5) none).isSome = true := by
  refine ⟨by decide, by decide, by decide, by decide, by decide, by decide⟩

/-- Claim C6 amended: the constructor validates nothing — not `winLength`
(any nonzero value is stored as given), not zero dimensions, and not even
negative inner dimensions hidden behind a zero outer one.  A session is
produced exactly when the lazily-nested `Array(n)` allocations all succeed:
construction fails only when `width` is an invalid array length (negative or
`≥ 2^32`), or `width ≥ 1` and `height` is invalid, or `width ≥ 1`,
`height ≥ 1` and `depth` is invalid. -/
theorem c6_construction_no_validation :
    ∀ (w h d : Int) (wl : Option Int),
      (¬ allocThrows w h d → (mkGame w h d wl).isSome = true) ∧
      (allocThrows w h d → mkGame w h d wl = none) ∧
      (∀ v : Int, ¬ v = 0 → ¬ allocThrows w h d →
        (mkGame w h d (some v)).map Game.winLength = some v) := by
  intro w h d wl
  refine ⟨?_, ?_, ?_⟩
  · intro hok
    unfold mkGame
    rw [if_neg hok]
    rfl
  · intro hbad
    unfold mkGame
    rw [if_pos hbad]
  · intro v hv hok
    unfold mkGame
    rw [if_neg hok]
    show some (if v = 0 then min w (min h d) else v) = some v
    rw [if_neg hv]

theorem c6_construction_no_validation_witness :
    (mkGame 0 (-1) 3 (some 5)).isSome = true ∧ mkGame (-1) 3 3 none = none ∧
    (mkGame 3 3 3 (some 5)).map Game.winLength = some 5 :=
  ⟨(c6_construction_no_validation 0 (-1) 3 (some 5)).1 (by decide),
   (c6_construction_no_validation (-1) 3 3 none).2.1 (by decide),
   (c6_construction_no_validation 3 3 3 (some 5)).2.2 5 (by decide) (by decide)⟩

/-- Claim C5: in any session constructed with `winLength = 1`, the very
first valid move is an immediate win for the player to move (X): the call
returns that win and stores it in the outcome. -/
theorem c5_winlength_one_first_move_wins {w h d : Int} {g0 : Game}
    (hg : mkGame w h d (some 1) = some g0) {x y z : Int}
    (hx1 : 0 ≤ x - 1) (hx2 : x - 1 < w) (hy1 : 0 ≤ y - 1) (hy2 : y - 1 < h)
    (hz1 : 0 ≤ z - 1) (hz2 : z - 1 < d) :
    (makeMove g0 x y z).2 = some (WinnerVal.mark g0.currentPlayer) ∧
    (makeMove g0 x y z).1.winner = some (WinnerVal.mark g0.currentPlayer) := by
  unfold mkGame at hg
  by_cases hbad : allocThrows w h d
  · rw [if_pos hbad] at hg
    cases hg
  rw [if_neg hbad] at hg
  injection hg with hg
  have hwl : g0.winLength = 1 := by rw [← hg]; norm_num
  have hboard : g0.board = fun _ _ _ => none := by rw [← hg]
  have hwidth : g0.width = w := by rw [← hg]
  have hheight : g0.height = h := by rw [← hg]
  have hdepth : g0.depth = d := by rw [← hg]
  have hnoob : ¬ oob g0 x y z := by unfold oob; rw [hwidth, hheight, hdepth]; omega
  have hcell : g0.board (x - 1) (y - 1) (z - 1) = none := by rw [hboard]
  have hpiv : (placeG g0 x y z).board (x - 1) (y - 1) (z - 1) = some g0.currentPlayer := by
    show updateBoard g0.board (x - 1) (y - 1) (z - 1) g0.currentPlayer (x - 1) (y - 1) (z - 1)
      = some g0.currentPlayer
    unfold updateBoard
    rw [if_pos ⟨rfl, rfl, rfl⟩]
  have hcw : checkWin (placeG g0 x y z) (x - 1) (y - 1) (z - 1)
      = some g0.currentPlayer := by
    unfold checkWin
    rw [hpiv]
    dsimp only
    have hcond : ¬ ((placeG g0 x y z).width = 3 ∧ (placeG g0 x y z).height = 3 ∧
        (placeG g0 x y z).depth = 3 ∧ (placeG g0 x y z).winLength = 3) := by
      intro hC
      have h4 : g0.winLength = 3 := hC.2.2.2
      rw [hwl] at h4
      norm_num at h4
    rw [if_neg hcond]
    exact genericScan_of_winLength_le_one (by show g0.winLength ≤ 1; omega) _ _ _ _
  rw [makeMove_accepted hnoob hcell, hcw]
  exact ⟨rfl, rfl⟩

def game1 : Game :=
  { width := 3, height := 3, depth := 3, winLength := 1,
    board := fun _ _ _ => none,
    currentPlayer := Mark.X,
    winner := none,
    moveCount := 0,
    totalCells := 27 }

theorem c5_winlength_one_first_move_wins_witness :
    (makeMove game1 1 1 1).2 = some (WinnerVal.mark game1.currentPlayer) ∧
    (makeMove game1 1 1 1).1.winner = some (WinnerVal.mark game1.currentPlayer) :=
  @c5_winlength_one_first_move_wins 3 3 3 game1
    (by
      unfold mkGame game1
      rw [if_neg (show ¬ allocThrows 3 3 3 from by decide)]
      norm_num) 1 1 1
    (by decide) (by decide) (by decide) (by decide) (by decide) (by decide)

/-! ### Claim C1: the code accepts moves after a terminal outcome -/

/-- The state after the five moves `(1,1,1) X, (2,1,1) O, (1,2,1) X,
(2,2,1) O, (1,3,1) X`: X completes the column `(1,1,1)-(1,2,1)-(1,3,1)` and
the stored outcome becomes `Win(X)`. -/
def c1state : Game :=
  mvSeq init3 [(1,1,1), (2,1,1), (1,2,1), (2,2,1), (1,3,1)]

/-- Claim C1 is violated by the code: `makeMove` performs no terminal-state
check, so after the outcome has become `Win(X)` a further call on the empty
cell `(3,3,3)` is still accepted — the board gains a mark, `moveCount`
grows to 6, and the win check runs again (returning X).  The claim (and the
spec) require this call to be a no-op. -/
theorem c1_post_terminal_move_accepted :
    c1state.winner = some (WinnerVal.mark Mark.X) ∧
    c1state.moveCount = 5 ∧
    c1state.board 2 2 2 = none ∧
    (makeMove c1state 3 3 3).1.board 2 2 2 = some Mark.X ∧
    (makeMove c1state 3 3 3).1.moveCount = 6 ∧
    (makeMove c1state 3 3 3).2 = some (WinnerVal.mark Mark.X) := by
  refine ⟨by decide, by decide, by decide, by decide, by decide, by decide⟩

/-! ### Claims C7 and C8: the two win-check enumerations -/

/-- The step vector from the first to the second cell of a tested line. -/
def stepVec (L : LineSpec) : Int × Int × Int :=
  (L.b.x - L.a.x, L.b.y - L.a.y, L.b.z - L.a.z)

/-- Number of nonzero components of a direction vector: 1 for axis-aligned
lines, 2 for face diagonals, 3 for space diagonals. -/
def nonzeroComps (d : Int × Int × Int) : Nat :=
  (if d.1 = 0 then 0 else 1) + (if d.2.1 = 0 then 0 else 1) + (if d.2.2 = 0 then 0 else 1)

/-- The three cells of a tested line. -/
def cellsOf (L : LineSpec) : List Coord := [L.a, L.b, L.c]

/-- Two tested lines cover the same set of cells. -/
def sameCells (L M : LineSpec) : Bool :=
  (cellsOf L).all (fun p => decide (p ∈ cellsOf M)) &&
  (cellsOf M).all (fun p => decide (p ∈ cellsOf L))

theorem checkLine_iff {a b c : Option Mark} :
    checkLine a b c = true ↔ ∃ v, a = some v ∧ b = some v ∧ c = some v := by
  cases a <;> cases b <;> cases c <;> simp [checkLine]
  constructor <;> (rintro ⟨rfl, rfl⟩; exact ⟨rfl, rfl⟩)

theorem stdRet : ∀ L ∈ stdLines, L.ret = L.a ∨ L.ret = L.b := by decide

theorem lineHit_of_checkLine {bd : Int → Int → Int → Option Mark} {L : LineSpec}
    (hret : L.ret = L.a ∨ L.ret = L.b)
    (h : checkLine (cell bd L.a) (cell bd L.b) (cell bd L.c) = true) :
    ∃ v, lineHit bd L = some v ∧ cell bd L.a = some v ∧ cell bd L.b = some v ∧
      cell bd L.c = some v := by
  obtain ⟨v, ha, hb, hc⟩ := checkLine_iff.mp h
  refine ⟨v, ?_, ha, hb, hc⟩
  unfold lineHit
  rw [if_pos h]
  rcases hret with h1 | h1 <;> rw [h1] <;> assumption

theorem stdScan_isSome_iff (bd : Int → Int → Int → Option Mark) :
    (stdScan bd).isSome = true ↔
      ∃ L ∈ stdLines, checkLine (cell bd L.a) (cell bd L.b) (cell bd L.c) = true := by
  constructor
  · intro h
    obtain ⟨w, hw⟩ := Option.isSome_iff_exists.mp h
    obtain ⟨L, hL, hhit⟩ := findSome?_eq_some_ex hw
    refine ⟨L, hL, ?_⟩
    unfold lineHit at hhit
    by_cases hcl : checkLine (cell bd L.a) (cell bd L.b) (cell bd L.c) = true
    · exact hcl
    · rw [if_neg hcl] at hhit
      cases hhit
  · rintro ⟨L, hL, hcl⟩
    obtain ⟨v, hv, -, -, -⟩ := lineHit_of_checkLine (stdRet L hL) hcl
    exact Option.ne_none_iff_isSome.mp (findSome?_ne_none_of_mem hL hv)

/-- Claim C7 counterexample: the claim's composition of the fast-path
enumeration (27 axis-aligned + 6 face-diagonal + 4 space-diagonal lines) is
wrong on the code: `checkWinStandard` tests 49 lines of which 18 — not 6 —
are face diagonals (and 27 + 6 + 4 is not even 49). -/
theorem c7_face_diagonal_count :
    stdLines.length = 49 ∧
    (stdLines.filter (fun L => nonzeroComps (stepVec L) == 2)).length = 18 ∧
    ¬ (stdLines.filter (fun L => nonzeroComps (stepVec L) == 2)).length = 6 ∧
    ¬ 27 + 6 + 4 = 49 := by decide

/-- Claim C7 amended: the fast path enumerates the 49 canonical winning
lines of the 3x3x3 cube — 27 axis-aligned lines, 18 face-diagonal lines
(2 per layer, 3 layers per plane family, 3 families) and 4 space diagonals —
pairwise distinct as cell sets, each a genuine arithmetic line; and it
declares a win exactly when one of those 49 lines has all three cells
non-empty and equal. -/
theorem c7_fast_path_enumeration :
    stdLines.length = 49 ∧
    (stdLines.filter (fun L => nonzeroComps (stepVec L) == 1)).length = 27 ∧
    (stdLines.filter (fun L => nonzeroComps (stepVec L) == 2)).length = 18 ∧
    (stdLines.filter (fun L => nonzeroComps (stepVec L) == 3)).length = 4 ∧
    stdLines.Pairwise (fun L M => sameCells L M = false) ∧
    (∀ L ∈ stdLines, L.b.x - L.a.x = L.c.x - L.b.x ∧ L.b.y - L.a.y = L.c.y - L.b.y ∧
      L.b.z - L.a.z = L.c.z - L.b.z ∧ stepVec L ≠ (0, 0, 0)) ∧
    (∀ g : Game, (checkWinStandard g).isSome = true ↔
      ∃ L ∈ stdLines,
        checkLine (cell g.board L.a) (cell g.board L.b) (cell g.board L.c) = true) := by
  refine ⟨by decide, by decide, by decide, by decide, by decide, by decide, ?_⟩
  intro g
  exact stdScan_isSome_iff g.board

theorem c7_fast_path_enumeration_witness :
    ((⟨⟨0,0,0⟩,⟨1,0,0⟩,⟨2,0,0⟩,⟨0,0,0⟩⟩ : LineSpec).b.x
        - (⟨⟨0,0,0⟩,⟨1,0,0⟩,⟨2,0,0⟩,⟨0,0,0⟩⟩ : LineSpec).a.x
      = (⟨⟨0,0,0⟩,⟨1,0,0⟩,⟨2,0,0⟩,⟨0,0,0⟩⟩ : LineSpec).c.x
        - (⟨⟨0,0,0⟩,⟨1,0,0⟩,⟨2,0,0⟩,⟨0,0,0⟩⟩ : LineSpec).b.x) ∧
    ((checkWinStandard init3).isSome = true ↔
      ∃ L ∈ stdLines,
        checkLine (cell init3.board L.a) (cell init3.board L.b) (cell init3.board L.c)
          = true) :=
  ⟨(c7_fast_path_enumeration.2.2.2.2.2.1 ⟨⟨0,0,0⟩,⟨1,0,0⟩,⟨2,0,0⟩,⟨0,0,0⟩⟩ (by decide)).1,
   c7_fast_path_enumeration.2.2.2.2.2.2 init3⟩

/-- Claim C8 counterexample: the generic path's direction list does not
merge a direction with its negation: it enumerates all 26 nonzero vectors of
`{-1,0,1}^3` (e.g. both `(1,0,0)` and `(-1,0,0)` are present), not 13
axes. -/
theorem c8_direction_list_not_merged :
    directions.length = 26 ∧
    ((1, 0, 0) : Int × Int × Int) ∈ directions ∧
    ((-1, 0, 0) : Int × Int × Int) ∈ directions ∧
    ¬ directions.length = 13 := by decide

/-- Claim C8 amended: the generic path enumerates all 26 nonzero direction
vectors of `{-1,0,1}^3` (each axis appears twice, as a vector and its
negation); for each vector it computes
`count = 1 + forward walk + backward walk`, and it declares a win for the
pivot player exactly when some enumerated vector's count reaches
`winLength`. -/
theorem c8_generic_scan :
    directions.length = 26 ∧
    (∀ d ∈ directions,
      d ≠ (0, 0, 0) ∧ d.1 ∈ dirRange ∧ d.2.1 ∈ dirRange ∧ d.2.2 ∈ dirRange) ∧
    (∀ d ∈ directions, (-d.1, -d.2.1, -d.2.2) ∈ directions) ∧
    (∀ dx ∈ dirRange, ∀ dy ∈ dirRange, ∀ dz ∈ dirRange,
      ¬ (dx = 0 ∧ dy = 0 ∧ dz = 0) → (dx, dy, dz) ∈ directions) ∧
    (∀ (g : Game) (player : Mark) (x y z dx dy dz : Int),
      dirCount g player x y z dx dy dz
        = 1 + forwardCount g player x y z dx dy dz
            + backwardCount g player x y z dx dy dz) ∧
    (∀ (g : Game) (player : Mark) (x y z : Int),
      genericScan g player x y z =
        if ∃ d ∈ directions,
            g.winLength ≤ (dirCount g player x y z d.1 d.2.1 d.2.2 : Int)
        then some player else none) := by
  refine ⟨by decide, by decide, by decide, by decide, fun _ _ _ _ _ _ _ _ => rfl, ?_⟩
  intro g player x y z
  unfold genericScan
  rw [findSome?_if_const]

theorem c8_generic_scan_witness :
    (((1, 0, 0) : Int × Int × Int) ≠ (0, 0, 0) ∧
      ((-1 : Int), (0 : Int), (0 : Int)) ∈ directions) ∧
    genericScan init3 Mark.X 0 0 0 =
      (if ∃ d ∈ directions,
          init3.winLength ≤ (dirCount init3 Mark.X 0 0 0 d.1 d.2.1 d.2.2 : Int)
       then some Mark.X else none) :=
  ⟨⟨(c8_generic_scan.2.1 (1, 0, 0) (by decide)).1,
    c8_generic_scan.2.2.1 (1, 0, 0) (by decide)⟩,
   c8_generic_scan.2.2.2.2.2 init3 Mark.X 0 0 0⟩

/-! ### Claim C4: `moveCount` equals the number of occupied cells -/

/-- The index set of the board's cells (0-based, as natural numbers). -/
def cellsIdx (g : Game) : Finset (ℕ × ℕ × ℕ) :=
  Finset.range g.width.toNat ×ˢ Finset.range g.height.toNat ×ˢ Finset.range g.depth.toNat

/-- Indicator of a non-empty cell. -/
def filledAt (g : Game) (p : ℕ × ℕ × ℕ) : ℕ :=
  if g.board p.1 p.2.1 p.2.2 = none then 0 else 1

/-- Number of non-empty cells on the board. -/
def countFilled (g : Game) : ℕ :=
  (cellsIdx g).sum (filledAt g)

/-- States reachable from `g0` by any sequence of `makeMove` and `reset`
calls. -/
inductive Reach (g0 : Game) : Game → Prop where
  | here : Reach g0 g0
  | move (g : Game) (x y z : Int) : Reach g0 g → Reach g0 (makeMove g x y z).1
  | doReset (g : Game) : Reach g0 g → Reach g0 (reset g)

theorem countFilled_congr {g g' : Game} (hw : g'.width = g.width)
    (hh : g'.height = g.height) (hd : g'.depth = g.depth)
    (hb : g'.board = g.board) : countFilled g' = countFilled g := by
  unfold countFilled cellsIdx filledAt
  rw [hb, hw, hh, hd]

theorem countFilled_zero {g : Game} (hb : g.board = fun _ _ _ => none) :
    countFilled g = 0 := by
  unfold countFilled
  refine Finset.sum_eq_zero fun p _ => ?_
  unfold filledAt
  rw [hb]
  rfl

theorem countFilled_update {g g' : Game} (hw : g'.width = g.width)
    (hh : g'.height = g.height) (hd : g'.depth = g.depth)
    {xi yi zi : Int} {m : Mark}
    (hb : g'.board = updateBoard g.board xi yi zi m)
    (hx1 : 0 ≤ xi) (hx2 : xi < g.width) (hy1 : 0 ≤ yi) (hy2 : yi < g.height)
    (hz1 : 0 ≤ zi) (hz2 : zi < g.depth)
    (hempty : g.board xi yi zi = none) :
    countFilled g' = countFilled g + 1 := by
  have hxi : ((xi.toNat : ℕ) : Int) = xi := Int.toNat_of_nonneg hx1
  have hyi : ((yi.toNat : ℕ) : Int) = yi := Int.toNat_of_nonneg hy1
  have hzi : ((zi.toNat : ℕ) : Int) = zi := Int.toNat_of_nonneg hz1
  have hp0 : (xi.toNat, yi.toNat, zi.toNat) ∈ cellsIdx g := by
    unfold cellsIdx
    simp only [Finset.mem_product, Finset.mem_range]
    omega
  have hfun : ∀ p ∈ cellsIdx g,
      filledAt g' p = Function.update (filledAt g) (xi.toNat, yi.toNat, zi.toNat) 1 p := by
    intro p _
    obtain ⟨p1, p2, p3⟩ := p
    rw [Function.update_apply]
    by_cases hpe : ((p1, p2, p3) : ℕ × ℕ × ℕ) = (xi.toNat, yi.toNat, zi.toNat)
    · rw [if_pos hpe, hpe]
      unfold filledAt
      rw [hb]
      unfold updateBoard
      dsimp only
      rw [if_pos (show ((xi.toNat : ℕ) : Int) = xi ∧ ((yi.toNat : ℕ) : Int) = yi ∧
        ((zi.toNat : ℕ) : Int) = zi from ⟨hxi, hyi, hzi⟩)]
      rfl
    · rw [if_neg hpe]
      unfold filledAt
      rw [hb]
      unfold updateBoard
      dsimp only
      have hne : ¬ (((p1 : ℕ) : Int) = xi ∧ ((p2 : ℕ) : Int) = yi ∧ ((p3 : ℕ) : Int) = zi) := by
        rintro ⟨h1, h2, h3⟩
        exact hpe (by simp only [Prod.mk.injEq]; omega)
      rw [if_neg hne]
  have hidx : cellsIdx g' = cellsIdx g := by
    unfold cellsIdx
    rw [hw, hh, hd]
  have h1 : countFilled g'
      = (cellsIdx g).sum (Function.update (filledAt g) (xi.toNat, yi.toNat, zi.toNat) 1) := by
    unfold countFilled
    rw [hidx]
    exact Finset.sum_congr rfl hfun
  have h2 : (cellsIdx g).sum (Function.update (filledAt g) (xi.toNat, yi.toNat, zi.toNat) 1)
      = 1 + ((cellsIdx g) \ {(xi.toNat, yi.toNat, zi.toNat)}).sum (filledAt g) :=
    Finset.sum_update_of_mem hp0 (filledAt g) 1
  have h4 : filledAt g (xi.toNat, yi.toNat, zi.toNat) = 0 := by
    unfold filledAt
    dsimp only
    rw [hxi, hyi, hzi, hempty]
    rfl
  have h3 : ((cellsIdx g).erase (xi.toNat, yi.toNat, zi.toNat)).sum (filledAt g)
      = countFilled g :=
    Finset.sum_erase _ h4
  rw [Finset.erase_eq] at h3
  omega

/-- Claim C4: at every state reachable from a constructed session by any
sequence of `makeMove` and `reset` calls, `moveCount` equals the number of
non-empty cells on the board. -/
theorem c4_moveCount_eq_filled (w h d : Int) (wl : Option Int) (g0 g : Game)
    (hg : mkGame w h d wl = some g0) (hr : Reach g0 g) :
    g.moveCount = (countFilled g : Int) := by
  induction hr with
  | here =>
    unfold mkGame at hg
    by_cases hneg : allocThrows w h d
    · rw [if_pos hneg] at hg; cases hg
    · rw [if_neg hneg] at hg
      injection hg with hg
      have hmc : g0.moveCount = 0 := by rw [← hg]
      have hb : g0.board = fun _ _ _ => none := by rw [← hg]
      rw [hmc, countFilled_zero hb]
      rfl
  | move g x y z _ ih =>
    obtain ⟨hw, hh, hd, -, -⟩ := makeMove_dims g x y z
    rcases makeMove_board_cases g x y z with ⟨hb, hmc⟩ | ⟨hno, hc, hb, hmc⟩
    · rw [hmc, countFilled_congr hw hh hd hb]
      exact ih
    · unfold oob at hno
      rw [hmc, countFilled_update hw hh hd hb (by omega) (by omega) (by omega)
        (by omega) (by omega) (by omega) hc]
      push_cast
      omega
  | doReset g _ ih =>
    have hb : (reset g).board = fun _ _ _ => none := rfl
    have hmc : (reset g).moveCount = 0 := rfl
    rw [hmc, countFilled_zero hb]
    rfl

theorem c4_moveCount_eq_filled_witness :
    init3.moveCount = (countFilled init3 : Int) :=
  c4_moveCount_eq_filled 3 3 3 (some 3) init3 init3
    (by
      unfold mkGame init3
      rw [if_neg (show ¬ allocThrows 3 3 3 from by decide)]
      norm_num) Reach.here

/-! ### Claim C2: infrastructure relating the two win checks -/

/-- The three coordinate values of a 3-wide axis. -/
def coordList : List Int := [0, 1, 2]

/-- Bounds check for a coordinate of the 3x3x3 cube. -/
def inCubeB (p : Coord) : Bool :=
  decide (0 ≤ p.x) && decide (p.x < 3) && decide (0 ≤ p.y) && decide (p.y < 3) &&
  decide (0 ≤ p.z) && decide (p.z < 3)

theorem inCubeB_intro {x y z : Int} (h1 : 0 ≤ x) (h2 : x < 3) (h3 : 0 ≤ y) (h4 : y < 3)
    (h5 : 0 ≤ z) (h6 : z < 3) : inCubeB ⟨x, y, z⟩ = true := by
  unfold inCubeB
  simp only [Bool.and_eq_true, decide_eq_true_eq]
  exact ⟨⟨⟨⟨⟨h1, h2⟩, h3⟩, h4⟩, h5⟩, h6⟩

theorem mem_coordList {x : Int} (h1 : 0 ≤ x) (h2 : x < 3) : x ∈ coordList := by
  unfold coordList
  have : x = 0 ∨ x = 1 ∨ x = 2 := by omega
  rcases this with rfl | rfl | rfl <;> simp

/-- Geometry of the 49 tested lines: every line lies in the cube, its three
cells are in arithmetic progression, and its step vector is one of the 26
scan directions. -/
theorem stdLines_struct : ∀ L ∈ stdLines,
    inCubeB L.a = true ∧ inCubeB L.b = true ∧ inCubeB L.c = true ∧
    L.b.x - L.a.x = L.c.x - L.b.x ∧ L.b.y - L.a.y = L.c.y - L.b.y ∧
    L.b.z - L.a.z = L.c.z - L.b.z ∧
    ((L.b.x - L.a.x, L.b.y - L.a.y, L.b.z - L.a.z) : Int × Int × Int) ∈ directions := by
  decide

/-- Completeness of the 49-line enumeration: every in-cube arithmetic
progression of three cells along a scan direction is one of the tested
lines, in its written orientation or reversed. -/
theorem tripleLine : ∀ d ∈ directions, ∀ qx ∈ coordList, ∀ qy ∈ coordList, ∀ qz ∈ coordList,
    inCubeB ⟨qx + d.1, qy + d.2.1, qz + d.2.2⟩ = true →
    inCubeB ⟨qx + 2 * d.1, qy + 2 * d.2.1, qz + 2 * d.2.2⟩ = true →
    ∃ L ∈ stdLines,
      (L.a = ⟨qx, qy, qz⟩ ∧ L.b = ⟨qx + d.1, qy + d.2.1, qz + d.2.2⟩ ∧
        L.c = ⟨qx + 2 * d.1, qy + 2 * d.2.1, qz + 2 * d.2.2⟩) ∨
      (L.c = ⟨qx, qy, qz⟩ ∧ L.b = ⟨qx + d.1, qy + d.2.1, qz + d.2.2⟩ ∧
        L.a = ⟨qx + 2 * d.1, qy + 2 * d.2.1, qz + 2 * d.2.2⟩) := by
  decide

theorem matchAt_true {g : Game} {player : Mark} {nx ny nz : Int}
    (hw : g.width = 3) (hh : g.height = 3) (hd : g.depth = 3)
    (h1 : 0 ≤ nx) (h2 : nx < 3) (h3 : 0 ≤ ny) (h4 : ny < 3) (h5 : 0 ≤ nz) (h6 : nz < 3)
    (hb : g.board nx ny nz = some player) : matchAt g player nx ny nz = true := by
  unfold matchAt
  rw [hw, hh, hd, hb]
  simp only [Bool.and_eq_true, decide_eq_true_eq, beq_self_eq_true, and_true]
  exact ⟨⟨⟨⟨⟨h1, h2⟩, h3⟩, h4⟩, h5⟩, h6⟩

theorem matchAt_elim {g : Game} {player : Mark} {nx ny nz : Int}
    (h : matchAt g player nx ny nz = true) :
    0 ≤ nx ∧ nx < g.width ∧ 0 ≤ ny ∧ ny < g.height ∧ 0 ≤ nz ∧ nz < g.depth ∧
    g.board nx ny nz = some player := by
  unfold matchAt at h
  simp only [Bool.and_eq_true, decide_eq_true_eq, beq_iff_eq] at h
  tauto

theorem stepIdx_wl3 {g : Game} (hwl : g.winLength = 3) : stepIdx g = [1, 2] := by
  unfold stepIdx
  rw [hwl]
  rfl

theorem forwardCount_wl3 {g : Game} (hwl : g.winLength = 3)
    (player : Mark) (x y z dx dy dz : Int) :
    forwardCount g player x y z dx dy dz
      = (([1, 2] : List Int).takeWhile (fun i =>
          matchAt g player (x + dx * i) (y + dy * i) (z + dz * i))).length := by
  unfold forwardCount
  rw [stepIdx_wl3 hwl]

theorem backwardCount_wl3 {g : Game} (hwl : g.winLength = 3)
    (player : Mark) (x y z dx dy dz : Int) :
    backwardCount g player x y z dx dy dz
      = (([1, 2] : List Int).takeWhile (fun i =>
          matchAt g player (x - dx * i) (y - dy * i) (z - dz * i))).length := by
  unfold backwardCount
  rw [stepIdx_wl3 hwl]

theorem takeWhile2_len (p : Int → Bool) :
    (([1, 2] : List Int).takeWhile p).length
      = if p 1 = true then (if p 2 = true then 2 else 1) else 0 := by
  cases h1 : p 1 <;> cases h2 : p 2 <;> simp [List.takeWhile, h1, h2]

theorem takeWhile2_le (p : Int → Bool) : (([1, 2] : List Int).takeWhile p).length ≤ 2 := by
  rw [takeWhile2_len]
  split_ifs <;> omega

theorem takeWhile2_ge1 {p : Int → Bool}
    (h : 1 ≤ (([1, 2] : List Int).takeWhile p).length) : p 1 = true := by
  rw [takeWhile2_len] at h
  by_cases h1 : p 1 = true
  · exact h1
  · rw [if_neg h1] at h
    omega

theorem takeWhile2_ge2 {p : Int → Bool}
    (h : 2 ≤ (([1, 2] : List Int).takeWhile p).length) : p 1 = true ∧ p 2 = true := by
  rw [takeWhile2_len] at h
  by_cases h1 : p 1 = true
  · by_cases h2 : p 2 = true
    · exact ⟨h1, h2⟩
    · rw [if_pos h1, if_neg h2] at h
      omega
  · rw [if_neg h1] at h
    omega

theorem takeWhile2_full {p : Int → Bool} (h1 : p 1 = true) (h2 : p 2 = true) :
    (([1, 2] : List Int).takeWhile p).length = 2 := by
  rw [takeWhile2_len, if_pos h1, if_pos h2]

theorem takeWhile2_one {p : Int → Bool} (h1 : p 1 = true) :
    1 ≤ (([1, 2] : List Int).takeWhile p).length := by
  rw [takeWhile2_len, if_pos h1]
  split_ifs <;> omega

/-- If three consecutive cells along a scan direction inside the cube all
hold the same mark, the 49-line scan reports a win. -/
theorem stdScan_ne_none_of_triple {bd : Int → Int → Int → Option Mark} (m : Mark)
    (qx qy qz dx dy dz : Int)
    (hdmem : ((dx, dy, dz) : Int × Int × Int) ∈ directions)
    (hq1 : 0 ≤ qx) (hq2 : qx < 3) (hq3 : 0 ≤ qy) (hq4 : qy < 3) (hq5 : 0 ≤ qz) (hq6 : qz < 3)
    (hr1 : 0 ≤ qx + dx) (hr2 : qx + dx < 3) (hr3 : 0 ≤ qy + dy) (hr4 : qy + dy < 3)
    (hr5 : 0 ≤ qz + dz) (hr6 : qz + dz < 3)
    (hs1 : 0 ≤ qx + 2 * dx) (hs2 : qx + 2 * dx < 3) (hs3 : 0 ≤ qy + 2 * dy)
    (hs4 : qy + 2 * dy < 3) (hs5 : 0 ≤ qz + 2 * dz) (hs6 : qz + 2 * dz < 3)
    (hb0 : bd qx qy qz = some m)
    (hb1 : bd (qx + dx) (qy + dy) (qz + dz) = some m)
    (hb2 : bd (qx + 2 * dx) (qy + 2 * dy) (qz + 2 * dz) = some m) :
    stdScan bd ≠ none := by
  obtain ⟨L, hL, horient⟩ :=
    tripleLine (dx, dy, dz) hdmem qx (mem_coordList hq1 hq2) qy (mem_coordList hq3 hq4)
      qz (mem_coordList hq5 hq6)
      (inCubeB_intro hr1 hr2 hr3 hr4 hr5 hr6)
      (inCubeB_intro hs1 hs2 hs3 hs4 hs5 hs6)
  have hcells : cell bd L.a = some m ∧ cell bd L.b = some m ∧ cell bd L.c = some m := by
    rcases horient with ⟨ha, hbb, hc⟩ | ⟨hc, hbb, ha⟩
    · exact ⟨by rw [ha]; exact hb0, by rw [hbb]; exact hb1, by rw [hc]; exact hb2⟩
    · exact ⟨by rw [ha]; exact hb2, by rw [hbb]; exact hb1, by rw [hc]; exact hb0⟩
  have hcl : checkLine (cell bd L.a) (cell bd L.b) (cell bd L.c) = true := by
    rw [hcells.1, hcells.2.1, hcells.2.2]
    simp [checkLine]
  obtain ⟨v, hv, -, -, -⟩ := lineHit_of_checkLine (stdRet L hL) hcl
  exact findSome?_ne_none_of_mem hL hv

theorem updateBoard_self (bd : Int → Int → Int → Option Mark) (xi yi zi : Int) (m : Mark) :
    updateBoard bd xi yi zi m xi yi zi = some m := by
  unfold updateBoard
  rw [if_pos ⟨rfl, rfl, rfl⟩]

theorem updateBoard_ne {bd : Int → Int → Int → Option Mark} {xi yi zi a b c : Int} {m : Mark}
    (h : ¬ (a = xi ∧ b = yi ∧ c = zi)) :
    updateBoard bd xi yi zi m a b c = bd a b c := by
  unfold updateBoard
  rw [if_neg h]

theorem inCubeB_elim {p : Coord} (h : inCubeB p = true) :
    0 ≤ p.x ∧ p.x < 3 ∧ 0 ≤ p.y ∧ p.y < 3 ∧ 0 ≤ p.z ∧ p.z < 3 := by
  unfold inCubeB at h
  simp only [Bool.and_eq_true, decide_eq_true_eq] at h
  tauto

/-- Core equivalence: on a 3x3x3 / winLength-3 game whose board arose by
playing one mark onto a board with no complete line, the generic
direction-scan from the just-played cell and the 49-line enumeration return
the same verdict. -/
theorem generic_eq_std_of_no_prior {g1 : Game}
    (hw : g1.width = 3) (hh : g1.height = 3) (hd : g1.depth = 3) (hwl : g1.winLength = 3)
    {b0 : Int → Int → Int → Option Mark} {px py pz : Int} {m : Mark}
    (hb : g1.board = updateBoard b0 px py pz m)
    (hpx1 : 0 ≤ px) (hpx2 : px < 3) (hpy1 : 0 ≤ py) (hpy2 : py < 3)
    (hpz1 : 0 ≤ pz) (hpz2 : pz < 3)
    (h0 : stdScan b0 = none) :
    genericScan g1 m px py pz = stdScan g1.board := by
  have hpiv : g1.board px py pz = some m := by
    rw [hb]
    exact updateBoard_self b0 px py pz m
  have hgen : genericScan g1 m px py pz
      = if ∃ d ∈ directions,
            g1.winLength ≤ (dirCount g1 m px py pz d.1 d.2.1 d.2.2 : Int)
        then some m else none := by
    unfold genericScan
    rw [findSome?_if_const]
  have huntouched : ∀ c : Coord, ¬ c = (⟨px, py, pz⟩ : Coord) →
      cell g1.board c = cell b0 c := by
    rintro ⟨cx, cy, cz⟩ hcne
    show g1.board cx cy cz = b0 cx cy cz
    rw [hb]
    apply updateBoard_ne
    rintro ⟨h1, h2, h3⟩
    exact hcne (by rw [h1, h2, h3])
  cases hstd : stdScan g1.board with
  | some w =>
    rw [hgen]
    obtain ⟨L, hL, hhit⟩ := findSome?_eq_some_ex hstd
    have hclt : checkLine (cell g1.board L.a) (cell g1.board L.b) (cell g1.board L.c)
        = true := by
      by_cases hcl : checkLine (cell g1.board L.a) (cell g1.board L.b) (cell g1.board L.c)
          = true
      · exact hcl
      · unfold lineHit at hhit
        rw [if_neg hcl] at hhit
        cases hhit
    obtain ⟨u, hu, hua, hub, huc⟩ := lineHit_of_checkLine (stdRet L hL) hclt
    have huw : u = w := by
      rw [hu] at hhit
      exact Option.some.inj hhit
    have hpmem : L.a = (⟨px, py, pz⟩ : Coord) ∨ L.b = (⟨px, py, pz⟩ : Coord)
        ∨ L.c = (⟨px, py, pz⟩ : Coord) := by
      by_contra hnp
      push_neg at hnp
      obtain ⟨hna, hnb, hnc⟩ := hnp
      have hclb : checkLine (cell b0 L.a) (cell b0 L.b) (cell b0 L.c) = true := by
        rw [← huntouched L.a hna, ← huntouched L.b hnb, ← huntouched L.c hnc]
        exact hclt
      obtain ⟨u2, hu2, -, -, -⟩ := lineHit_of_checkLine (stdRet L hL) hclb
      exact (findSome?_ne_none_of_mem hL hu2) h0
    obtain ⟨hina, hinb, hinc, hex, hey, hez, hdmem⟩ := stdLines_struct _ hL
    obtain ⟨⟨ax, ay, az⟩, ⟨bx, byy, bz⟩, ⟨cx, cyy, cz⟩, ⟨rx, ry, rz⟩⟩ := L
    dsimp only at hex hey hez hdmem hpmem
    obtain ⟨a1, a2, a3, a4, a5, a6⟩ := inCubeB_elim hina
    obtain ⟨b1, b2, b3, b4, b5, b6⟩ := inCubeB_elim hinb
    obtain ⟨c1, c2, c3, c4, c5, c6⟩ := inCubeB_elim hinc
    dsimp only at a1 a2 a3 a4 a5 a6 b1 b2 b3 b4 b5 b6 c1 c2 c3 c4 c5 c6
    have hua' : g1.board ax ay az = some u := hua
    have hub' : g1.board bx byy bz = some u := hub
    have huc' : g1.board cx cyy cz = some u := huc
    have hsome : ∃ d ∈ directions,
        g1.winLength ≤ (dirCount g1 m px py pz d.1 d.2.1 d.2.2 : Int) := by
      refine ⟨(bx - ax, byy - ay, bz - az), hdmem, ?_⟩
      dsimp only
      rw [hwl]
      unfold dirCount
      rw [forwardCount_wl3 hwl, backwardCount_wl3 hwl]
      rcases hpmem with hpm | hpm | hpm <;>
        rw [Coord.mk.injEq] at hpm <;> obtain ⟨e1, e2, e3⟩ := hpm
      · -- pivot is the first cell: both forward steps match
        have hum : u = m := by
          rw [← e1, ← e2, ← e3] at hpiv
          rw [hua'] at hpiv
          exact Option.some.inj hpiv
        have p1 : matchAt g1 m (px + (bx - ax) * 1) (py + (byy - ay) * 1)
            (pz + (bz - az) * 1) = true := by
          rw [show px + (bx - ax) * 1 = bx from by omega,
            show py + (byy - ay) * 1 = byy from by omega,
            show pz + (bz - az) * 1 = bz from by omega]
          exact matchAt_true hw hh hd b1 b2 b3 b4 b5 b6 (by rw [hub', hum])
        have p2 : matchAt g1 m (px + (bx - ax) * 2) (py + (byy - ay) * 2)
            (pz + (bz - az) * 2) = true := by
          rw [show px + (bx - ax) * 2 = cx from by omega,
            show py + (byy - ay) * 2 = cyy from by omega,
            show pz + (bz - az) * 2 = cz from by omega]
          exact matchAt_true hw hh hd c1 c2 c3 c4 c5 c6 (by rw [huc', hum])
        rw [@takeWhile2_full (fun i => matchAt g1 m (px + (bx - ax) * i)
          (py + (byy - ay) * i) (pz + (bz - az) * i)) p1 p2]
        push_cast
        omega
      · -- pivot is the middle cell: one forward and one backward step match
        have hum : u = m := by
          rw [← e1, ← e2, ← e3] at hpiv
          rw [hub'] at hpiv
          exact Option.some.inj hpiv
        have p1 : matchAt g1 m (px + (bx - ax) * 1) (py + (byy - ay) * 1)
            (pz + (bz - az) * 1) = true := by
          rw [show px + (bx - ax) * 1 = cx from by omega,
            show py + (byy - ay) * 1 = cyy from by omega,
            show pz + (bz - az) * 1 = cz from by omega]
          exact matchAt_true hw hh hd c1 c2 c3 c4 c5 c6 (by rw [huc', hum])
        have q1 : matchAt g1 m (px - (bx - ax) * 1) (py - (byy - ay) * 1)
            (pz - (bz - az) * 1) = true := by
          rw [show px - (bx - ax) * 1 = ax from by omega,
            show py - (byy - ay) * 1 = ay from by omega,
            show pz - (bz - az) * 1 = az from by omega]
          exact matchAt_true hw hh hd a1 a2 a3 a4 a5 a6 (by rw [hua', hum])
        have hf := @takeWhile2_one (fun i => matchAt g1 m (px + (bx - ax) * i)
          (py + (byy - ay) * i) (pz + (bz - az) * i)) p1
        have hbk := @takeWhile2_one (fun i => matchAt g1 m (px - (bx - ax) * i)
          (py - (byy - ay) * i) (pz - (bz - az) * i)) q1
        push_cast
        omega
      · -- pivot is the last cell: both backward steps match
        have hum : u = m := by
          rw [← e1, ← e2, ← e3] at hpiv
          rw [huc'] at hpiv
          exact Option.some.inj hpiv
        have q1 : matchAt g1 m (px - (bx - ax) * 1) (py - (byy - ay) * 1)
            (pz - (bz - az) * 1) = true := by
          rw [show px - (bx - ax) * 1 = bx from by omega,
            show py - (byy - ay) * 1 = byy from by omega,
            show pz - (bz - az) * 1 = bz from by omega]
          exact matchAt_true hw hh hd b1 b2 b3 b4 b5 b6 (by rw [hub', hum])
        have q2 : matchAt g1 m (px - (bx - ax) * 2) (py - (byy - ay) * 2)
            (pz - (bz - az) * 2) = true := by
          rw [show px - (bx - ax) * 2 = ax from by omega,
            show py - (byy - ay) * 2 = ay from by omega,
            show pz - (bz - az) * 2 = az from by omega]
          exact matchAt_true hw hh hd a1 a2 a3 a4 a5 a6 (by rw [hua', hum])
        rw [@takeWhile2_full (fun i => matchAt g1 m (px - (bx - ax) * i)
          (py - (byy - ay) * i) (pz - (bz - az) * i)) q1 q2]
        push_cast
        omega
    rw [if_pos hsome]
    -- the winning mark is the pivot mark
    have hum : u = m := by
      rcases hpmem with hpm | hpm | hpm <;> rw [Coord.mk.injEq] at hpm <;>
        obtain ⟨e1, e2, e3⟩ := hpm
      · rw [← e1, ← e2, ← e3] at hpiv
        rw [hua'] at hpiv
        exact Option.some.inj hpiv
      · rw [← e1, ← e2, ← e3] at hpiv
        rw [hub'] at hpiv
        exact Option.some.inj hpiv
      · rw [← e1, ← e2, ← e3] at hpiv
        rw [huc'] at hpiv
        exact Option.some.inj hpiv
    rw [← huw, hum]
  | none =>
    rw [hgen]
    rw [if_neg ?hnex]
    case hnex =>
      rintro ⟨⟨dx, dy, dz⟩, hdmem, hcnt⟩
      dsimp only at hcnt
      rw [hwl] at hcnt
      unfold dirCount at hcnt
      rw [forwardCount_wl3 hwl, backwardCount_wl3 hwl] at hcnt
      have hle1 := takeWhile2_le (fun i =>
        matchAt g1 m (px + dx * i) (py + dy * i) (pz + dz * i))
      have hle2 := takeWhile2_le (fun i =>
        matchAt g1 m (px - dx * i) (py - dy * i) (pz - dz * i))
      push_cast at hcnt
      by_cases hf2 : 2 ≤ (([1, 2] : List Int).takeWhile (fun i =>
          matchAt g1 m (px + dx * i) (py + dy * i) (pz + dz * i))).length
      · -- two forward matches: the triple is p, p+d, p+2d
        obtain ⟨q1, q2⟩ := takeWhile2_ge2 hf2
        obtain ⟨m11, m12, m13, m14, m15, m16, m17⟩ := matchAt_elim q1
        obtain ⟨m21, m22, m23, m24, m25, m26, m27⟩ := matchAt_elim q2
        rw [hw] at m12 m22
        rw [hh] at m14 m24
        rw [hd] at m16 m26
        refine stdScan_ne_none_of_triple m px py pz dx dy dz hdmem
          hpx1 hpx2 hpy1 hpy2 hpz1 hpz2
          (by omega) (by omega) (by omega) (by omega) (by omega) (by omega)
          (by omega) (by omega) (by omega) (by omega) (by omega) (by omega)
          hpiv ?_ ?_ hstd
        · rw [show px + dx = px + dx * 1 from by ring,
            show py + dy = py + dy * 1 from by ring,
            show pz + dz = pz + dz * 1 from by ring]
          exact m17
        · rw [show px + 2 * dx = px + dx * 2 from by ring,
            show py + 2 * dy = py + dy * 2 from by ring,
            show pz + 2 * dz = pz + dz * 2 from by ring]
          exact m27
      · by_cases hb2c : 2 ≤ (([1, 2] : List Int).takeWhile (fun i =>
            matchAt g1 m (px - dx * i) (py - dy * i) (pz - dz * i))).length
        · -- two backward matches: the triple is p-2d, p-d, p
          obtain ⟨q1, q2⟩ := takeWhile2_ge2 hb2c
          obtain ⟨m11, m12, m13, m14, m15, m16, m17⟩ := matchAt_elim q1
          obtain ⟨m21, m22, m23, m24, m25, m26, m27⟩ := matchAt_elim q2
          rw [hw] at m12 m22
          rw [hh] at m14 m24
          rw [hd] at m16 m26
          refine stdScan_ne_none_of_triple m (px - 2 * dx) (py - 2 * dy) (pz - 2 * dz)
            dx dy dz hdmem
            (by omega) (by omega) (by omega) (by omega) (by omega) (by omega)
            (by omega) (by omega) (by omega) (by omega) (by omega) (by omega)
            (by omega) (by omega) (by omega) (by omega) (by omega) (by omega)
            ?_ ?_ ?_ hstd
          · rw [show px - 2 * dx = px - dx * 2 from by ring,
              show py - 2 * dy = py - dy * 2 from by ring,
              show pz - 2 * dz = pz - dz * 2 from by ring]
            exact m27
          · rw [show px - 2 * dx + dx = px - dx * 1 from by ring,
              show py - 2 * dy + dy = py - dy * 1 from by ring,
              show pz - 2 * dz + dz = pz - dz * 1 from by ring]
            exact m17
          · rw [show px - 2 * dx + 2 * dx = px from by ring,
              show py - 2 * dy + 2 * dy = py from by ring,
              show pz - 2 * dz + 2 * dz = pz from by ring]
            exact hpiv
        · -- one forward and one backward match: the triple is p-d, p, p+d
          have hf1 : 1 ≤ (([1, 2] : List Int).takeWhile (fun i =>
              matchAt g1 m (px + dx * i) (py + dy * i) (pz + dz * i))).length := by omega
          have hbk1 : 1 ≤ (([1, 2] : List Int).takeWhile (fun i =>
              matchAt g1 m (px - dx * i) (py - dy * i) (pz - dz * i))).length := by omega
          have q1 := takeWhile2_ge1 hf1
          have q2 := takeWhile2_ge1 hbk1
          obtain ⟨m11, m12, m13, m14, m15, m16, m17⟩ := matchAt_elim q1
          obtain ⟨m21, m22, m23, m24, m25, m26, m27⟩ := matchAt_elim q2
          rw [hw] at m12 m22
          rw [hh] at m14 m24
          rw [hd] at m16 m26
          refine stdScan_ne_none_of_triple m (px - dx) (py - dy) (pz - dz) dx dy dz hdmem
            (by omega) (by omega) (by omega) (by omega) (by omega) (by omega)
            (by omega) (by omega) (by omega) (by omega) (by omega) (by omega)
            (by omega) (by omega) (by omega) (by omega) (by omega) (by omega)
            ?_ ?_ ?_ hstd
          · rw [show px - dx = px - dx * 1 from by ring,
              show py - dy = py - dy * 1 from by ring,
              show pz - dz = pz - dz * 1 from by ring]
            exact m27
          · rw [show px - dx + dx = px from by ring,
              show py - dy + dy = py from by ring,
              show pz - dz + dz = pz from by ring]
            exact hpiv
          · rw [show px - dx + 2 * dx = px + dx * 1 from by ring,
              show py - dy + 2 * dy = py + dy * 1 from by ring,
              show pz - dz + 2 * dz = pz + dz * 1 from by ring]
            exact m17

/-- Legal play on the default 3x3x3 configuration, stopping at the first
terminal outcome: every move is made while the game is still in progress. -/
inductive ReachStop : Game → Prop where
  | init : ReachStop init3
  | step (g : Game) (x y z : Int) : ReachStop g → g.winner = none →
      ReachStop (makeMove g x y z).1

theorem reachStop_dims {g : Game} (h : ReachStop g) :
    g.width = 3 ∧ g.height = 3 ∧ g.depth = 3 ∧ g.winLength = 3 := by
  induction h with
  | init => exact ⟨rfl, rfl, rfl, rfl⟩
  | step g x y z hr hwn ih =>
    obtain ⟨hw, hh, hd, hwl, -⟩ := makeMove_dims g x y z
    exact ⟨hw.trans ih.1, hh.trans ih.2.1, hd.trans ih.2.2.1, hwl.trans ih.2.2.2⟩

theorem placeG_pivot (g : Game) (x y z : Int) :
    (placeG g x y z).board (x - 1) (y - 1) (z - 1) = some g.currentPlayer :=
  updateBoard_self g.board (x - 1) (y - 1) (z - 1) g.currentPlayer

theorem checkWin_std {g : Game} (hw : g.width = 3) (hh : g.height = 3) (hd : g.depth = 3)
    (hwl : g.winLength = 3) {x y z : Int} {p : Mark} (hpiv : g.board x y z = some p) :
    checkWin g x y z = checkWinStandard g := by
  unfold checkWin
  rw [hpiv]
  dsimp only
  rw [if_pos ⟨hw, hh, hd, hwl⟩]

/-- Along stopped legal play, a state that is still in progress has no
complete line on its board: the fast path found none when the last move was
checked. -/
theorem reachStop_no_line {g : Game} (h : ReachStop g) :
    g.winner = none → stdScan g.board = none := by
  induction h with
  | init => intro _; decide
  | step g x y z hr hwn ih =>
    intro hwin
    have ihl := ih hwn
    obtain ⟨hw, hh, hd, hwl⟩ := reachStop_dims hr
    by_cases ho : oob g x y z
    · rw [makeMove_oob ho]
      exact ihl
    · by_cases hc : g.board (x - 1) (y - 1) (z - 1) = none
      · rw [makeMove_accepted ho hc] at hwin ⊢
        have hcw : checkWin (placeG g x y z) (x - 1) (y - 1) (z - 1)
            = checkWinStandard (placeG g x y z) :=
          @checkWin_std (placeG g x y z) hw hh hd hwl (x - 1) (y - 1) (z - 1)
            g.currentPlayer (placeG_pivot g x y z)
        rw [hcw] at hwin ⊢
        cases hsw : checkWinStandard (placeG g x y z) with
        | some w =>
          rw [hsw] at hwin
          exact Option.noConfusion (show some (WinnerVal.mark w) = none from hwin)
        | none =>
          rw [hsw] at hwin
          dsimp only at hwin ⊢
          by_cases hf : (placeG g x y z).moveCount = (placeG g x y z).totalCells
          · rw [if_pos hf] at hwin
            exact Option.noConfusion (show some WinnerVal.draw = none from hwin)
          · rw [if_neg hf]
            exact hsw
      · rw [makeMove_occupied ho hc]
        exact ihl

/-- Claim C2: on every board state reachable by legal stopped play of the
default 3x3x3 / winLength-3 game, after any accepted move the generic
direction-scan from the just-played cell and the 49-line fast path return
the identical verdict. -/
theorem c2_generic_fast_agree {g : Game} (hr : ReachStop g) (hwin : g.winner = none)
    {x y z : Int} (hno : ¬ oob g x y z) (hc : g.board (x - 1) (y - 1) (z - 1) = none) :
    genericScan (placeG g x y z) g.currentPlayer (x - 1) (y - 1) (z - 1)
      = checkWinStandard (placeG g x y z) := by
  obtain ⟨hw, hh, hd, hwl⟩ := reachStop_dims hr
  have h0 : stdScan g.board = none := reachStop_no_line hr hwin
  unfold oob at hno
  rw [hw, hh, hd] at hno
  have key := @generic_eq_std_of_no_prior (placeG g x y z) hw hh hd hwl
    g.board (x - 1) (y - 1) (z - 1) g.currentPlayer rfl
    (by omega) (by omega) (by omega) (by omega) (by omega) (by omega) h0
  rw [key]
  unfold checkWinStandard
  rfl

theorem c2_generic_fast_agree_witness :
    genericScan (placeG init3 1 1 1) init3.currentPlayer (1 - 1) (1 - 1) (1 - 1)
      = checkWinStandard (placeG init3 1 1 1) :=
  c2_generic_fast_agree ReachStop.init rfl (by decide) rfl

end TTT
